import Mathlib

/-!
# Verification of the Mp3-Fusion audio pipeline

Shallow embedding of the audio mixing/encoding core of the Mp3-Fusion
repository: the mix scheduler and gain envelopes of `mergeAudioTracks`,
the loudness analyzer `calculateOptimalVolume`, the MP3 worker's sample
quantization and block chunking, the WAV encoder `bufferToWav`, and the
`handleMerge` state machine of `App.tsx`.  Real (JS `number`) arithmetic is
modelled with `ℚ` (and `ℝ` where a square root occurs); typed-array stores
keep their wrap-around semantics explicitly.
-/

namespace Mp3Fusion

/-! ### Mix Scheduler (`mergeAudioTracks`, src/unnamed/part_000)

`totalRawDuration` is `audioBuffers.reduce((acc, buf) => acc + buf.duration, 0)`,
`totalOverlap` is `Math.max(0, (audioBuffers.length - 1) * crossfadeDuration)`,
`finalDuration` is `Math.max(totalRawDuration - totalOverlap, 1)`, and the
offline render context is created with `Math.ceil(sampleRate * finalDuration)`
frames at the fixed rate `sampleRate = 44100`. -/

/-- `audioBuffers.reduce((acc, buf) => acc + buf.duration, 0)`. -/
def totalRawDuration (ds : List ℚ) : ℚ := ds.foldl (fun acc d => acc + d) 0

/-- `Math.max(0, (audioBuffers.length - 1) * crossfadeDuration)`. -/
def totalOverlap (n : ℕ) (c : ℚ) : ℚ := max 0 (((n : ℚ) - 1) * c)

/-- `Math.max(totalRawDuration - totalOverlap, 1)` (at least one second). -/
def finalDuration (ds : List ℚ) (c : ℚ) : ℚ :=
  max (totalRawDuration ds - totalOverlap ds.length c) 1

/-- Frame count of the `OfflineAudioContext`:
`Math.ceil(44100 * finalDuration)`. -/
def renderFrameCount (ds : List ℚ) (c : ℚ) : ℤ :=
  ⌈(44100 : ℚ) * finalDuration ds c⌉

/-- Composite duration as the claim words it: `max(1, sum(d_i) - c*(n-1))`. -/
def claimedDuration (ds : List ℚ) (c : ℚ) : ℚ :=
  max 1 (ds.sum - c * ((ds.length : ℚ) - 1))

theorem totalRawDuration_eq_sum (ds : List ℚ) : totalRawDuration ds = ds.sum := by
  have h : ∀ init : ℚ, ds.foldl (fun acc d => acc + d) init = init + ds.sum := by
    induction ds with
    | nil => intro init; simp
    | cons d tl ih => intro init; simp [List.foldl, ih, List.sum_cons]; ring
  simpa using h 0

/-! ### Gain envelopes (`mergeAudioTracks`, src/unnamed/part_000, lines 122-151)

The code drives a Web Audio `GainNode` with `setValueAtTime` /
`linearRampToValueAtTime` automation events.  `GainEvent` records one such
call; `evalFrom` is the standard automation semantics: a set event holds its
value from its time on, and a linear-ramp event interpolates from the
previous event's value/time to its own. -/

inductive GainEvent where
  | setValue (t v : ℚ)
  | linearRamp (t v : ℚ)
deriving DecidableEq

/-- Web Audio automation semantics: evaluate an event list at time `t`,
starting from the previous event `(t0, v0)`. -/
def evalFrom (t0 v0 : ℚ) : List GainEvent → ℚ → ℚ
  | [], _ => v0
  | .setValue t1 v1 :: rest, t =>
      if t < t1 then v0 else evalFrom t1 v1 rest t
  | .linearRamp t1 v1 :: rest, t =>
      if t < t1 then
        (if t ≤ t0 then v0 else v0 + (v1 - v0) * (t - t0) / (t1 - t0))
      else evalFrom t1 v1 rest t

/-- `Math.min(crossfadeDuration, buffer.duration / 2)` — the effective fade
of one clip. -/
def actualFade (c dur : ℚ) : ℚ := min c (dur / 2)

/-- The automation events `mergeAudioTracks` schedules for one clip:
fade-in branch (`index > 0 && actualFade > 0`) then fade-out branch
(`index < audioBuffers.length - 1 && actualFade > 0`), with the literal
`setValueAtTime`/`linearRampToValueAtTime` calls of the source. -/
def clipEvents (isFirst isLast : Bool) (start dur vol fade : ℚ) : List GainEvent :=
  (if isFirst = false ∧ 0 < fade then
     [.setValue start 0, .linearRamp (start + fade) vol]
   else
     [.setValue start vol]) ++
  (if isLast = false ∧ 0 < fade then
     [.setValue (start + dur - fade) vol, .linearRamp (start + dur) 0]
   else
     [.setValue (start + fade) vol])

/-- The gain envelope of one clip as a function of time (the `GainNode`'s
default value is 1 before any event). -/
def clipGain (isFirst isLast : Bool) (start dur vol c : ℚ) (t : ℚ) : ℚ :=
  evalFrom 0 1 (clipEvents isFirst isLast start dur vol (actualFade c dur)) t

theorem evalFrom_set_skip (t0 v0 t1 v1 t : ℚ) (rest : List GainEvent)
    (h : t1 ≤ t) :
    evalFrom t0 v0 (.setValue t1 v1 :: rest) t = evalFrom t1 v1 rest t := by
  simp [evalFrom, not_lt.mpr h]

theorem evalFrom_ramp_skip (t0 v0 t1 v1 t : ℚ) (rest : List GainEvent)
    (h : t1 ≤ t) :
    evalFrom t0 v0 (.linearRamp t1 v1 :: rest) t = evalFrom t1 v1 rest t := by
  simp [evalFrom, not_lt.mpr h]

theorem evalFrom_ramp_mid (t0 v0 t1 v1 t : ℚ) (rest : List GainEvent)
    (hlt : t < t1) (hgt : t0 < t) :
    evalFrom t0 v0 (.linearRamp t1 v1 :: rest) t
      = v0 + (v1 - v0) * (t - t0) / (t1 - t0) := by
  simp [evalFrom, hlt, not_le.mpr hgt]

theorem evalFrom_ramp_at_start (t0 v0 t1 v1 t : ℚ) (rest : List GainEvent)
    (hlt : t < t1) (hle : t ≤ t0) :
    evalFrom t0 v0 (.linearRamp t1 v1 :: rest) t = v0 := by
  simp [evalFrom, hlt, hle]

theorem evalFrom_set_stay (t0 v0 t1 v1 t : ℚ) (rest : List GainEvent)
    (h : t < t1) :
    evalFrom t0 v0 (.setValue t1 v1 :: rest) t = v0 := by
  simp [evalFrom, h]

theorem actualFade_le_half (c dur : ℚ) : actualFade c dur ≤ dur / 2 :=
  min_le_right c (dur / 2)

theorem dur_pos_of_fade_pos {c dur : ℚ} (h : 0 < actualFade c dur) : 0 < dur := by
  have := actualFade_le_half c dur
  linarith

/-- Fade-in shape: a non-first clip with a positive effective fade ramps
linearly from 0 to its volume over `[start, start + fade]`. -/
theorem clipGain_fadeIn (isLast : Bool) (start dur vol c t : ℚ)
    (hfade : 0 < actualFade c dur) (ht1 : start ≤ t)
    (ht2 : t ≤ start + actualFade c dur) :
    clipGain false isLast start dur vol c t
      = vol * (t - start) / actualFade c dur := by
  set fade := actualFade c dur with hfdef
  have hhalf : fade ≤ dur / 2 := actualFade_le_half c dur
  have hdur : 0 < dur := dur_pos_of_fade_pos hfade
  have hfos : start + fade ≤ start + dur - fade := by linarith
  have hne : fade ≠ 0 := ne_of_gt hfade
  unfold clipGain clipEvents
  rw [← hfdef]
  rw [if_pos ⟨rfl, hfade⟩]
  rw [List.cons_append, List.cons_append, List.nil_append]
  rw [evalFrom_set_skip _ _ _ _ _ _ ht1]
  rcases lt_or_eq_of_le ht2 with hlt | heq
  · rcases le_or_lt t start with hle | hgt
    · have hts : t = start := le_antisymm hle ht1
      rw [evalFrom_ramp_at_start _ _ _ _ _ _ hlt hle, hts]
      simp
    · rw [evalFrom_ramp_mid _ _ _ _ _ _ hlt hgt]
      have harm : start + fade - start = fade := by ring
      rw [harm]
      ring
  · rw [evalFrom_ramp_skip _ _ _ _ _ _ (le_of_eq heq.symm)]
    have hval : vol * (t - start) / fade = vol := by
      rw [heq]
      field_simp
    rw [hval]
    by_cases hl : isLast = false ∧ 0 < fade
    · rw [if_pos hl]
      rcases lt_or_le t (start + dur - fade) with hlt2 | hge2
      · rw [evalFrom_set_stay _ _ _ _ _ _ hlt2]
      · rw [evalFrom_set_skip _ _ _ _ _ _ hge2]
        have hend : t < start + dur := by linarith
        have hto : t ≤ start + dur - fade := by linarith
        rw [evalFrom_ramp_at_start _ _ _ _ _ _ hend hto]
    · rw [if_neg hl]
      rw [evalFrom_set_skip _ _ _ _ _ _ (le_of_eq heq.symm)]
      rfl

/-- Fade-out shape: a non-last clip with a positive effective fade ramps
linearly from its volume to 0 over `[start + dur - fade, start + dur]`. -/
theorem clipGain_fadeOut (isFirst : Bool) (start dur vol c t : ℚ)
    (hfade : 0 < actualFade c dur) (ht1 : start + dur - actualFade c dur ≤ t)
    (ht2 : t ≤ start + dur) :
    clipGain isFirst false start dur vol c t
      = vol * (start + dur - t) / actualFade c dur := by
  set fade := actualFade c dur with hfdef
  have hhalf : fade ≤ dur / 2 := actualFade_le_half c dur
  have hdur : 0 < dur := dur_pos_of_fade_pos hfade
  have hfos : start + fade ≤ start + dur - fade := by linarith
  have hne : fade ≠ 0 := ne_of_gt hfade
  have hstart : start ≤ t := by linarith
  have hmid : start + fade ≤ t := le_trans hfos ht1
  unfold clipGain clipEvents
  rw [← hfdef]
  have hstep : evalFrom 0 1
      ((if isFirst = false ∧ 0 < fade then
          [GainEvent.setValue start 0, GainEvent.linearRamp (start + fade) vol]
        else [GainEvent.setValue start vol]) ++
       (if (false : Bool) = false ∧ 0 < fade then
          [GainEvent.setValue (start + dur - fade) vol,
           GainEvent.linearRamp (start + dur) 0]
        else [GainEvent.setValue (start + fade) vol])) t
      = evalFrom (start + dur - fade) vol [GainEvent.linearRamp (start + dur) 0] t := by
    by_cases hf : isFirst = false ∧ 0 < fade
    · rw [if_pos hf, if_pos ⟨rfl, hfade⟩]
      rw [List.cons_append, List.cons_append, List.nil_append]
      rw [evalFrom_set_skip _ _ _ _ _ _ hstart]
      rw [evalFrom_ramp_skip _ _ _ _ _ _ hmid]
      rw [evalFrom_set_skip _ _ _ _ _ _ ht1]
    · rw [if_neg hf, if_pos ⟨rfl, hfade⟩]
      rw [List.cons_append, List.nil_append]
      rw [evalFrom_set_skip _ _ _ _ _ _ hstart]
      rw [evalFrom_set_skip _ _ _ _ _ _ ht1]
  rw [hstep]
  rcases lt_or_eq_of_le ht2 with hlt | heq
  · rcases le_or_lt t (start + dur - fade) with hle | hgt
    · have hts : t = start + dur - fade := le_antisymm hle ht1
      rw [evalFrom_ramp_at_start _ _ _ _ _ _ hlt hle, hts]
      have harm : start + dur - (start + dur - fade) = fade := by ring
      rw [harm, mul_div_assoc, div_self hne, mul_one]
    · rw [evalFrom_ramp_mid _ _ _ _ _ _ hlt hgt]
      have harm : start + dur - (start + dur - fade) = fade := by ring
      rw [harm]
      field_simp
      ring
  · rw [evalFrom_ramp_skip _ _ _ _ _ _ (le_of_eq heq.symm)]
    rw [heq]
    simp [evalFrom]

/-- C1: for every non-empty list of decoded clip durations and every
crossfade `c ≥ 0`, the composite rendered by `mergeAudioTracks` lasts
`max(1, sum(d_i) - c*(n-1))` seconds at the fixed 44100 Hz rate, with the
frame count of the offline context rounded up to a whole sample. -/
theorem merge_composite_duration (ds : List ℚ) (c : ℚ)
    (hne : ds ≠ []) (hc : 0 ≤ c) :
    finalDuration ds c = claimedDuration ds c ∧
    renderFrameCount ds c = ⌈(44100 : ℚ) * claimedDuration ds c⌉ := by
  have hlen : 1 ≤ ds.length := List.length_pos.mpr hne
  have hcast : (1 : ℚ) ≤ (ds.length : ℚ) := by exact_mod_cast hlen
  have hov : totalOverlap ds.length c = ((ds.length : ℚ) - 1) * c := by
    unfold totalOverlap
    exact max_eq_right (mul_nonneg (by linarith) hc)
  have hdur : finalDuration ds c = claimedDuration ds c := by
    unfold finalDuration claimedDuration
    rw [hov, totalRawDuration_eq_sum, max_comm]
    ring_nf
  exact ⟨hdur, by unfold renderFrameCount; rw [hdur]⟩

theorem merge_composite_duration_check :
    (([(2 : ℚ), 3] : List ℚ) ≠ [] ∧ (0 : ℚ) ≤ 1) ∧
    (finalDuration [2, 3] 1 = claimedDuration [2, 3] 1 ∧
     renderFrameCount [2, 3] 1 = ⌈(44100 : ℚ) * claimedDuration [2, 3] 1⌉) :=
  ⟨⟨by decide, by norm_num⟩,
   merge_composite_duration [2, 3] 1 (by decide) (by norm_num)⟩

/-- C2: the effective fade of a clip is `min(crossfade, duration/2)`; a
non-first clip with positive fade ramps linearly from 0 to its volume over
`[start, start + fade]`, a non-last clip with positive fade ramps linearly
from its volume to 0 over `[start + dur - fade, start + dur]`, and a
2-second clip with a requested 10-second crossfade gets an effective fade
of exactly 1.0 seconds. -/
theorem effective_fade_and_envelope (isFirst isLast : Bool)
    (start dur vol c t : ℚ) :
    actualFade c dur = min c (dur / 2) ∧
    (isFirst = false → 0 < actualFade c dur → start ≤ t →
      t ≤ start + actualFade c dur →
      clipGain isFirst isLast start dur vol c t
        = vol * (t - start) / actualFade c dur) ∧
    (isLast = false → 0 < actualFade c dur →
      start + dur - actualFade c dur ≤ t → t ≤ start + dur →
      clipGain isFirst isLast start dur vol c t
        = vol * (start + dur - t) / actualFade c dur) ∧
    actualFade 10 2 = 1 := by
  refine ⟨rfl, ?_, ?_, by norm_num [actualFade]⟩
  · intro hf hfade h1 h2
    subst hf
    exact clipGain_fadeIn isLast start dur vol c t hfade h1 h2
  · intro hl hfade h1 h2
    subst hl
    exact clipGain_fadeOut isFirst start dur vol c t hfade h1 h2

theorem effective_fade_and_envelope_check :
    clipGain false false 0 2 1 10 (1 / 2)
      = 1 * ((1 / 2 : ℚ) - 0) / actualFade 10 2 ∧
    clipGain false false 0 2 1 10 (3 / 2)
      = 1 * ((0 : ℚ) + 2 - 3 / 2) / actualFade 10 2 :=
  ⟨(effective_fade_and_envelope false false 0 2 1 10 (1 / 2)).2.1 rfl
     (by norm_num [actualFade]) (by norm_num) (by norm_num [actualFade]),
   (effective_fade_and_envelope false false 0 2 1 10 (3 / 2)).2.2.1 rfl
     (by norm_num [actualFade]) (by norm_num [actualFade]) (by norm_num)⟩

/-! ### Loudness Analyzer (`calculateOptimalVolume`, src/unnamed/part_000)

The loop `for(i = 0; i < data.length; i += step) sum += data[i]*data[i]`
with `step = 4` visits indices `0, 4, 8, ...`, i.e. `⌈length/4⌉` samples.
The source then takes `Math.sqrt(sum / (data.length / step))` — dividing by
the exact ratio `length/4`, which differs from the number of sampled points
whenever `length` is not a multiple of 4. -/

/-- Sum of squares over every 4th sample of a channel. -/
def stridedSumSq (data : List ℝ) : ℝ :=
  ∑ i in Finset.range ((data.length + 3) / 4),
    data.getD (4 * i) 0 * data.getD (4 * i) 0

/-- `Math.sqrt(sum / (data.length / step))` with `step = 4`. -/
noncomputable def rmsOf (data : List ℝ) : ℝ :=
  Real.sqrt (stridedSumSq data / ((data.length : ℝ) / 4))

/-- `calculateOptimalVolume`: analyze the first channel
(`audioBuffer.getChannelData(0)`), return `1.0` for zero RMS, otherwise
`Math.min(Math.max(targetRms / rms, 0.1), 3.0)`. -/
noncomputable def calculateOptimalVolume
    (channels : List (List ℝ)) (targetRms : ℝ) : ℝ :=
  if rmsOf (channels.getD 0 []) = 0 then 1
  else min (max (targetRms / rmsOf (channels.getD 0 [])) 0.1) 3

/-- RMS as the claim words it: the square root of the mean of the squared
strided samples, the mean taken over the number of sampled points. -/
noncomputable def claimedRms (data : List ℝ) : ℝ :=
  Real.sqrt
    ((∑ i in (Finset.range data.length).filter (fun i => i % 4 = 0),
        data.getD i 0 ^ 2) /
     (((Finset.range data.length).filter (fun i => i % 4 = 0)).card : ℝ))

/-- The analyzer gain as claim C3 words it: `targetRms / rms` clamped to
`[0.1, 3.0]`, and `1.0` when the RMS is exactly zero. -/
noncomputable def claimedOptimalVolume
    (channels : List (List ℝ)) (targetRms : ℝ) : ℝ :=
  if claimedRms (channels.getD 0 []) = 0 then 1
  else max 0.1 (min (targetRms / claimedRms (channels.getD 0 [])) 3)

/-- The analyzer gain as amended: same zero case and clamp, but the mean is
`sum / (length/4)` exactly as the source divides. -/
noncomputable def claimedAmendedVolume
    (channels : List (List ℝ)) (targetRms : ℝ) : ℝ :=
  if Real.sqrt
       ((∑ i in (Finset.range (channels.getD 0 []).length).filter
            (fun i => i % 4 = 0), (channels.getD 0 []).getD i 0 ^ 2) /
        (((channels.getD 0 []).length : ℝ) / 4)) = 0 then 1
  else
    max 0.1 (min (targetRms /
      Real.sqrt
        ((∑ i in (Finset.range (channels.getD 0 []).length).filter
             (fun i => i % 4 = 0), (channels.getD 0 []).getD i 0 ^ 2) /
         (((channels.getD 0 []).length : ℝ) / 4))) 3)

theorem card_stride (len : ℕ) :
    ((Finset.range len).filter (fun i => i % 4 = 0)).card = (len + 3) / 4 := by
  induction len with
  | zero => simp
  | succ n ih =>
    rw [Finset.range_succ, Finset.filter_insert]
    by_cases h : n % 4 = 0
    · rw [if_pos h, Finset.card_insert_of_not_mem (by simp), ih]
      omega
    · rw [if_neg h, ih]
      omega

theorem sum_stride (len : ℕ) (f : ℕ → ℝ) :
    ∑ i in (Finset.range len).filter (fun i => i % 4 = 0), f i
      = ∑ q in Finset.range ((len + 3) / 4), f (4 * q) := by
  induction len with
  | zero => simp
  | succ n ih =>
    rw [Finset.range_succ, Finset.filter_insert]
    by_cases h : n % 4 = 0
    · rw [if_pos h, Finset.sum_insert (by simp)]
      have hc : (n + 1 + 3) / 4 = (n + 3) / 4 + 1 := by omega
      rw [hc, Finset.sum_range_succ, ih]
      have hn : 4 * ((n + 3) / 4) = n := by omega
      rw [hn]
      ring
    · rw [if_neg h, ih]
      have hc : (n + 1 + 3) / 4 = (n + 3) / 4 := by omega
      rw [hc]

theorem stridedSumSq_eq_filter_sum (data : List ℝ) :
    (∑ i in (Finset.range data.length).filter (fun i => i % 4 = 0),
       data.getD i 0 ^ 2) = stridedSumSq data := by
  rw [sum_stride]
  unfold stridedSumSq
  refine Finset.sum_congr rfl fun q _ => ?_
  ring

theorem clamp_comm (a : ℝ) : min (max a 0.1) 3 = max 0.1 (min a 3) := by
  rcases le_total a 0.1 with h | h
  · rw [max_eq_right h, min_eq_left (by linarith : a ≤ (3 : ℝ)),
      min_eq_left (by norm_num : (0.1 : ℝ) ≤ 3), max_eq_left h]
  · rw [max_eq_left h]
    rcases le_total a 3 with h3 | h3
    · rw [min_eq_left h3, max_eq_right h]
    · rw [min_eq_right h3, max_eq_right (by norm_num)]

/-- C3 (amended): `calculateOptimalVolume` computes the RMS of every 4th
sample of the first channel as `sqrt(sum(sample^2) / (length/4))` — the
divisor being the exact ratio `length/4`, not the number of sampled
points — returns 1.0 when that RMS is exactly zero, and otherwise returns
`targetRms / rms` clamped to `[0.1, 3.0]`. -/
theorem loudness_gain_amended (channels : List (List ℝ)) (targetRms : ℝ) :
    calculateOptimalVolume channels targetRms
      = claimedAmendedVolume channels targetRms := by
  unfold calculateOptimalVolume claimedAmendedVolume
  rw [stridedSumSq_eq_filter_sum]
  by_cases h : rmsOf (channels.getD 0 []) = 0
  · rw [if_pos h, if_pos (by rw [← h]; rfl)]
  · rw [if_neg h, if_neg (by rw [show Real.sqrt (stridedSumSq (channels.getD 0 []) / ((((channels.getD 0 []).length : ℕ) : ℝ) / 4)) = rmsOf (channels.getD 0 []) from rfl]; exact h)]
    rw [show Real.sqrt (stridedSumSq (channels.getD 0 []) / ((((channels.getD 0 []).length : ℕ) : ℝ) / 4)) = rmsOf (channels.getD 0 []) from rfl]
    exact clamp_comm _

/-- C3 counterexample: on the 5-sample first channel `[1,0,0,0,0]` the
source divides the strided square sum by `5/4` while the claim's mean
divides by the 2 sampled points, so the returned gains differ. -/
theorem loudness_gain_counterexample :
    calculateOptimalVolume [[1, 0, 0, 0, 0]] 0.15
      ≠ claimedOptimalVolume [[1, 0, 0, 0, 0]] 0.15 := by
  have hdata : (([[1, 0, 0, 0, 0]] : List (List ℝ)).getD 0 []) = [1, 0, 0, 0, 0] := rfl
  have hlen : ([1, 0, 0, 0, 0] : List ℝ).length = 5 := rfl
  have hs : stridedSumSq [1, 0, 0, 0, 0] = 1 := by
    unfold stridedSumSq
    rw [hlen]
    norm_num [Finset.sum_range_succ, List.getD]
  have hfs : (∑ i in (Finset.range ([1, 0, 0, 0, 0] : List ℝ).length).filter
      (fun i => i % 4 = 0), ([1, 0, 0, 0, 0] : List ℝ).getD i 0 ^ 2) = 1 := by
    rw [stridedSumSq_eq_filter_sum, hs]
  have hcard : (((Finset.range ([1, 0, 0, 0, 0] : List ℝ).length).filter
      (fun i => i % 4 = 0)).card : ℝ) = 2 := by
    rw [hlen, card_stride]
    norm_num
  set a := rmsOf [1, 0, 0, 0, 0] with hadef
  set b := claimedRms [1, 0, 0, 0, 0] with hbdef
  have ha2 : a ^ 2 = 4 / 5 := by
    rw [hadef]
    unfold rmsOf
    rw [hs, hlen]
    rw [Real.sq_sqrt (by norm_num)]
    norm_num
  have hb2 : b ^ 2 = 1 / 2 := by
    rw [hbdef]
    unfold claimedRms
    rw [hfs, hcard]
    rw [Real.sq_sqrt (by norm_num)]
  have hapos : 0 < a := by
    rw [hadef]
    unfold rmsOf
    rw [hs, hlen]
    exact Real.sqrt_pos.mpr (by norm_num)
  have hbpos : 0 < b := by
    rw [hbdef]
    unfold claimedRms
    rw [hfs, hcard]
    exact Real.sqrt_pos.mpr (by norm_num)
  have ha1 : a ≤ 1 := by nlinarith
  have ha05 : (1 / 2 : ℝ) ≤ a := by nlinarith
  have hb1 : b ≤ 1 := by nlinarith
  have hb05 : (1 / 2 : ℝ) ≤ b := by nlinarith
  have hga : calculateOptimalVolume [[1, 0, 0, 0, 0]] 0.15 = 0.15 / a := by
    unfold calculateOptimalVolume
    rw [hdata, ← hadef, if_neg (ne_of_gt hapos)]
    rw [max_eq_left (by rw [le_div_iff₀ hapos]; nlinarith)]
    rw [min_eq_left (by rw [div_le_iff₀ hapos]; nlinarith)]
  have hgb : claimedOptimalVolume [[1, 0, 0, 0, 0]] 0.15 = 0.15 / b := by
    unfold claimedOptimalVolume
    rw [hdata, ← hbdef, if_neg (ne_of_gt hbpos)]
    rw [min_eq_left (by rw [div_le_iff₀ hbpos]; nlinarith)]
    rw [max_eq_right (by rw [le_div_iff₀ hbpos]; nlinarith)]
  rw [hga, hgb]
  intro h
  have hab : a = b := by
    field_simp at h
    rcases h with h | h
    · exact h.symm
    · norm_num at h
  rw [hab] at ha2
  rw [hb2] at ha2
  norm_num at ha2

/-! ### Quantization and block chunking

The MP3 worker (`WORKER_CODE`, src/unnamed/part_000) converts floats with
`samples[i] = Math.max(-1, Math.min(1, x)) * 32767`, the fractional value
being truncated toward zero and wrapped by the `Int16Array` store, and then
chunks the arrays with
`for (i = 0; i < samples.length; i += 1152) subarray(i, i + 1152)`.
The WAV encoder (`bufferToWav`, src/services/soundGenerator.ts) converts
with `(sample < 0 ? sample * 0x8000 : sample * 0x7FFF) | 0`. -/

/-- `Math.max(-1, Math.min(1, x))`. -/
def clampJs (x : ℚ) : ℚ := max (-1) (min 1 x)

/-- JS number-to-integer conversion: truncation toward zero. -/
def jsTrunc (x : ℚ) : ℤ := if 0 ≤ x then ⌊x⌋ else ⌈x⌉

/-- Wrapping of an integer into a signed 16-bit value (`Int16Array` store). -/
def toInt16 (n : ℤ) : ℤ := (n + 32768) % 65536 - 32768

/-- Wrapping of an integer into a signed 32-bit value (JS `| 0`). -/
def toInt32 (n : ℤ) : ℤ := (n + 2147483648) % 4294967296 - 2147483648

/-- The MP3 worker's quantizer:
`samplesLeft[i] = Math.max(-1, Math.min(1, left[i])) * 32767`. -/
def quantWorker (x : ℚ) : ℤ := toInt16 (jsTrunc (clampJs x * 32767))

/-- The WAV encoder's quantizer:
`sample = Math.max(-1, Math.min(1, s)); (sample < 0 ? sample * 0x8000 : sample * 0x7FFF) | 0`. -/
def quantWav (x : ℚ) : ℤ :=
  toInt32 (jsTrunc (if clampJs x < 0 then clampJs x * 32768
                    else clampJs x * 32767))

/-- The quantizer as claim C7 words it:
`round(clamp(x,-1,1) * (x<0 ? 32768 : 32767))`. -/
def claimedQuant (x : ℚ) : ℤ :=
  round (clampJs x * (if x < 0 then 32768 else 32767))

/-- The worker's chunk loop: take the next 1152 samples while samples
remain (`subarray(i, i + sampleBlockSize)` with step 1152). -/
def chunkBlocks (l : List ℚ) : List (List ℚ) :=
  if l.length = 0 then []
  else l.take 1152 :: chunkBlocks (l.drop 1152)
termination_by l.length
decreasing_by simp [List.length_drop]; omega

theorem neg_one_le_clampJs (x : ℚ) : -1 ≤ clampJs x := le_max_left _ _

theorem clampJs_le_one (x : ℚ) : clampJs x ≤ 1 :=
  max_le (by norm_num) (min_le_left _ _)

theorem clampJs_neg_iff (x : ℚ) : clampJs x < 0 ↔ x < 0 := by
  unfold clampJs
  rw [max_lt_iff, min_lt_iff]
  constructor
  · rintro ⟨-, h | h⟩
    · exact absurd h (by norm_num)
    · exact h
  · intro h
    exact ⟨by norm_num, Or.inr h⟩

theorem jsTrunc_mem {y : ℚ} {M : ℤ} (h1 : -(M : ℚ) ≤ y) (h2 : y ≤ (M : ℚ)) :
    -M ≤ jsTrunc y ∧ jsTrunc y ≤ M := by
  unfold jsTrunc
  split_ifs with h
  · have hM : (0 : ℚ) ≤ (M : ℚ) := le_trans h h2
    have hM0 : (0 : ℤ) ≤ M := by exact_mod_cast hM
    have h0 : (0 : ℤ) ≤ ⌊y⌋ := Int.floor_nonneg.mpr h
    have hf : ⌊y⌋ ≤ ⌊((M : ℤ) : ℚ)⌋ := Int.floor_mono h2
    rw [Int.floor_intCast] at hf
    exact ⟨by omega, hf⟩
  · push_neg at h
    have hc : ⌈((-M : ℤ) : ℚ)⌉ ≤ ⌈y⌉ := by
      apply Int.ceil_mono
      push_cast
      exact h1
    rw [Int.ceil_intCast] at hc
    have h0 : ⌈y⌉ ≤ 0 := Int.ceil_le.mpr (by exact_mod_cast le_of_lt h)
    have hM : (0 : ℚ) < (M : ℚ) := by linarith
    have hM0 : (0 : ℤ) < M := by exact_mod_cast hM
    exact ⟨hc, by omega⟩

theorem toInt16_eq_self {n : ℤ} (h1 : -32768 ≤ n) (h2 : n ≤ 32767) :
    toInt16 n = n := by
  unfold toInt16
  omega

theorem toInt32_eq_self {n : ℤ} (h1 : -2147483648 ≤ n) (h2 : n ≤ 2147483647) :
    toInt32 n = n := by
  unfold toInt32
  omega

theorem chunkBlocks_eq_nil_iff (l : List ℚ) :
    chunkBlocks l = [] ↔ l.length = 0 := by
  rw [chunkBlocks]
  split_ifs with h
  · simp [h]
  · simp [h]

theorem chunkBlocks_flatten (l : List ℚ) : (chunkBlocks l).flatten = l := by
  induction l using chunkBlocks.induct with
  | case1 l hl =>
    rw [chunkBlocks, if_pos hl]
    exact (List.length_eq_zero.mp hl).symm
  | case2 l hl ih =>
    rw [chunkBlocks, if_neg hl]
    rw [List.flatten_cons, ih, List.take_append_drop]

theorem chunkBlocks_length (l : List ℚ) :
    (chunkBlocks l).length = (l.length + 1151) / 1152 := by
  induction l using chunkBlocks.induct with
  | case1 l hl =>
    rw [chunkBlocks, if_pos hl, List.length_nil, hl]
  | case2 l hl ih =>
    rw [chunkBlocks, if_neg hl, List.length_cons, ih, List.length_drop]
    omega

theorem chunkBlocks_le (l : List ℚ) :
    ∀ blk ∈ chunkBlocks l, blk.length ≤ 1152 := by
  induction l using chunkBlocks.induct with
  | case1 l hl =>
    rw [chunkBlocks, if_pos hl]
    intro blk h
    exact absurd h (List.not_mem_nil blk)
  | case2 l hl ih =>
    rw [chunkBlocks, if_neg hl]
    intro blk h
    rcases List.mem_cons.mp h with h | h
    · rw [h, List.length_take]
      omega
    · exact ih blk h

theorem chunkBlocks_full (l : List ℚ) :
    ∀ b : ℕ, b + 1 < (chunkBlocks l).length →
      ((chunkBlocks l).getD b []).length = 1152 := by
  induction l using chunkBlocks.induct with
  | case1 l hl =>
    rw [chunkBlocks, if_pos hl]
    intro b hb
    simp at hb
  | case2 l hl ih =>
    rw [chunkBlocks, if_neg hl]
    intro b hb
    match b with
    | 0 =>
      have hrest : chunkBlocks (l.drop 1152) ≠ [] := by
        intro hnil
        rw [hnil] at hb
        simp at hb
      have hlen : (l.drop 1152).length ≠ 0 :=
        fun h => hrest ((chunkBlocks_eq_nil_iff _).mpr h)
      rw [List.length_drop] at hlen
      simp [List.length_take]
      omega
    | b + 1 =>
      apply ih
      simpa using hb

/-- C7 counterexample: at sample `0.7` both quantizers truncate
`0.7 * 32767 = 22936.9` to `22936` while the claimed formula rounds it to
`22937`; at `-1` the worker produces `-32767`, not the claimed
`round(-1 * 32768) = -32768`; and a 1-sample array is fed to the encoder as
one block of length 1, not 1152. -/
theorem quantization_counterexample :
    quantWorker (7 / 10) ≠ claimedQuant (7 / 10) ∧
    quantWav (7 / 10) ≠ claimedQuant (7 / 10) ∧
    quantWorker (-1) ≠ claimedQuant (-1) ∧
    ((chunkBlocks [0]).getD 0 []).length = 1 := by
  refine ⟨?_, ?_, ?_, ?_⟩
  · norm_num [quantWorker, claimedQuant, clampJs, jsTrunc, toInt16,
      min_def, max_def, round_eq]
  · norm_num [quantWav, claimedQuant, clampJs, jsTrunc, toInt32,
      min_def, max_def, round_eq]
  · have hceil : ⌈(-32767 : ℚ)⌉ = (-32767 : ℤ) := by
      rw [show (-32767 : ℚ) = ((-32767 : ℤ) : ℚ) by norm_num, Int.ceil_intCast]
    norm_num [quantWorker, claimedQuant, clampJs, jsTrunc, toInt16,
      min_def, max_def, round_eq, hceil]
  · rw [chunkBlocks]
    simp

/-- C7 (amended): both quantizers truncate toward zero rather than round —
the MP3 worker computes `trunc(clamp(x,-1,1) * 32767)` for all signs, the
WAV encoder computes `trunc(clamp(x,-1,1) * (x<0 ? 32768 : 32767))` — and
samples are fed to the encoder in blocks of 1152 samples per channel
except that the final block holds the remaining samples (at most 1152),
the blocks together covering the samples exactly. -/
theorem quantization_truncation_and_blocks (x : ℚ) (samples : List ℚ) :
    quantWorker x = jsTrunc (clampJs x * 32767) ∧
    quantWav x = jsTrunc (clampJs x * (if x < 0 then 32768 else 32767)) ∧
    (chunkBlocks samples).flatten = samples ∧
    (∀ blk ∈ chunkBlocks samples, blk.length ≤ 1152) ∧
    (∀ b : ℕ, b + 1 < (chunkBlocks samples).length →
      ((chunkBlocks samples).getD b []).length = 1152) := by
  have hc1 := neg_one_le_clampJs x
  have hc2 := clampJs_le_one x
  refine ⟨?_, ?_, chunkBlocks_flatten samples, chunkBlocks_le samples,
    chunkBlocks_full samples⟩
  · have h1 : -((32767 : ℤ) : ℚ) ≤ clampJs x * 32767 := by push_cast; nlinarith
    have h2 : clampJs x * 32767 ≤ ((32767 : ℤ) : ℚ) := by push_cast; nlinarith
    obtain ⟨hb1, hb2⟩ := jsTrunc_mem h1 h2
    exact toInt16_eq_self (by omega) hb2
  · unfold quantWav
    rw [if_congr (clampJs_neg_iff x) rfl rfl]
    by_cases h : x < 0
    · rw [if_pos h, if_pos h]
      have hneg : clampJs x < 0 := (clampJs_neg_iff x).mpr h
      have h1 : -((32768 : ℤ) : ℚ) ≤ clampJs x * 32768 := by push_cast; nlinarith
      have h2 : clampJs x * 32768 ≤ ((32768 : ℤ) : ℚ) := by push_cast; nlinarith
      obtain ⟨hb1, hb2⟩ := jsTrunc_mem h1 h2
      exact toInt32_eq_self (by omega) (by omega)
    · rw [if_neg h, if_neg h]
      have h1 : -((32767 : ℤ) : ℚ) ≤ clampJs x * 32767 := by push_cast; nlinarith
      have h2 : clampJs x * 32767 ≤ ((32767 : ℤ) : ℚ) := by push_cast; nlinarith
      obtain ⟨hb1, hb2⟩ := jsTrunc_mem h1 h2
      exact toInt32_eq_self (by omega) (by omega)

theorem quantization_truncation_and_blocks_check :
    quantWorker (7 / 10) = jsTrunc (clampJs (7 / 10) * 32767) ∧
    ((chunkBlocks (List.replicate 1153 0)).getD 0 []).length = 1152 :=
  ⟨(quantization_truncation_and_blocks (7 / 10) (List.replicate 1153 0)).1,
   (quantization_truncation_and_blocks (7 / 10)
      (List.replicate 1153 0)).2.2.2.2 0 (by
        rw [chunkBlocks_length, List.length_replicate]
        omega)⟩

/-! ### WAV encoder (`bufferToWav`, src/services/soundGenerator.ts)

`bufferToWav` writes a 44-byte header with sequential
`setUint16`/`setUint32` little-endian stores, then the interleaved
quantized samples with `setInt16`.  `length = len * numOfChan * 2 + 44`;
the data chunk size is written as `length - pos - 44` with `pos = 40` at
that point.  Bytes are modelled as a `List ℕ` of values below 256. -/

/-- Little-endian bytes of `view.setUint32(pos, data, true)`. -/
def u32le (n : ℕ) : List ℕ :=
  [n % 256, n / 256 % 256, n / 65536 % 256, n / 16777216 % 256]

/-- Little-endian bytes of `view.setUint16(pos, data, true)`. -/
def u16le (n : ℕ) : List ℕ := [n % 256, n / 256 % 256]

/-- `setUint32` applied to a possibly negative JS number: ToUint32 wraps
modulo `2^32`. -/
def u32leZ (z : ℤ) : List ℕ := u32le (z % 4294967296).toNat

/-- `view.setInt16(pos, sample, true)`: the low 16 bits, little-endian. -/
def i16le (z : ℤ) : List ℕ := u16le (z % 65536).toNat

/-- One interleaved frame: the `for (i = 0; i < numOfChan; i++)` inner
loop, writing each channel's quantized sample at position `pos`. -/
def frameBytes (channels : List (List ℚ)) (pos : ℕ) : List ℕ :=
  (channels.map (fun ch => i16le (quantWav (ch.getD pos 0)))).flatten

/-- The `while (pos < len)` interleaving loop of `bufferToWav`. -/
def wavData (channels : List (List ℚ)) : ℕ → List ℕ
  | 0 => []
  | len + 1 => wavData channels len ++ frameBytes channels len

/-- `bufferToWav`: the header stores in source order, then the sample
data.  `0x46464952`, `0x45564157`, `0x20746d66`, `0x61746164` are the
literal constants of the source. -/
def bufferToWav (channels : List (List ℚ)) (sampleRate len : ℕ) : List ℕ :=
  u32le 0x46464952 ++
  u32le (len * channels.length * 2 + 44 - 8) ++
  u32le 0x45564157 ++
  u32le 0x20746d66 ++
  u32le 16 ++
  u16le 1 ++
  u16le channels.length ++
  u32le sampleRate ++
  u32le (sampleRate * 2 * channels.length) ++
  u16le (channels.length * 2) ++
  u16le 16 ++
  u32le 0x61746164 ++
  u32leZ (((len * channels.length * 2 + 44 : ℕ) : ℤ) - 40 - 44) ++
  wavData channels len

/-- ASCII bytes of the tag `RIFF`. -/
def asciiRIFF : List ℕ := [0x52, 0x49, 0x46, 0x46]

/-- ASCII bytes of the tag `WAVE`. -/
def asciiWAVE : List ℕ := [0x57, 0x41, 0x56, 0x45]

/-- ASCII bytes of the tag `fmt ` (with trailing space). -/
def asciiFmt : List ℕ := [0x66, 0x6d, 0x74, 0x20]

/-- ASCII bytes of the tag `data`. -/
def asciiData : List ℕ := [0x64, 0x61, 0x74, 0x61]

/-- Interleaved little-endian 16-bit samples as the claim describes them:
frame by frame, channel by channel. -/
def claimedInterleaved (channels : List (List ℚ)) (len : ℕ) : List ℕ :=
  ((List.range len).map (frameBytes channels)).flatten

theorem frameBytes_length (channels : List (List ℚ)) (pos : ℕ) :
    (frameBytes channels pos).length = channels.length * 2 := by
  unfold frameBytes
  induction channels with
  | nil => rfl
  | cons ch rest ih =>
    rw [List.map_cons, List.flatten_cons, List.length_append, ih,
      List.length_cons]
    have h2 : (i16le (quantWav (ch.getD pos 0))).length = 2 := rfl
    rw [h2]
    ring

theorem wavData_length (channels : List (List ℚ)) (len : ℕ) :
    (wavData channels len).length = len * (channels.length * 2) := by
  induction len with
  | zero => simp [wavData]
  | succ n ih =>
    rw [wavData, List.length_append, ih, frameBytes_length]
    ring

theorem wavData_eq_claimedInterleaved (channels : List (List ℚ)) (len : ℕ) :
    wavData channels len = claimedInterleaved channels len := by
  induction len with
  | zero => rfl
  | succ n ih =>
    unfold claimedInterleaved at ih ⊢
    rw [wavData, ih, List.range_succ, List.map_append, List.flatten_append]
    simp

theorem u32le_inj {m n : ℕ} (hm : m < 4294967296) (hn : n < 4294967296)
    (h : u32le m = u32le n) : m = n := by
  unfold u32le at h
  simp only [List.cons.injEq, and_true] at h
  omega

theorem u16le_inj {m n : ℕ} (hm : m < 65536) (hn : n < 65536)
    (h : u16le m = u16le n) : m = n := by
  unfold u16le at h
  simp only [List.cons.injEq, and_true] at h
  omega

/-- C8: the WAV encoder's byte stream has exactly `44 + N*C*2` bytes and
consists of the `RIFF` tag, the chunk size, the `WAVE` tag, a 16-byte
`fmt ` sub-chunk holding PCM format 1, the channel count, the sample rate,
the byte rate `R*C*2` and the block align `C*2` with 16 bits per sample,
then the `data` tag, the data-size field, and the interleaved
little-endian 16-bit samples. -/
theorem wav_stream_layout (channels : List (List ℚ)) (R len : ℕ) :
    (bufferToWav channels R len).length = 44 + len * channels.length * 2 ∧
    bufferToWav channels R len
      = asciiRIFF ++ u32le (len * channels.length * 2 + 44 - 8) ++
        asciiWAVE ++ asciiFmt ++ u32le 16 ++ u16le 1 ++
        u16le channels.length ++ u32le R ++
        u32le (R * channels.length * 2) ++ u16le (channels.length * 2) ++
        u16le 16 ++ asciiData ++
        u32leZ (((len * channels.length * 2 : ℕ) : ℤ) - 40) ++
        claimedInterleaved channels len := by
  constructor
  · unfold bufferToWav
    simp only [List.length_append, wavData_length]
    have h1 : (u32le 0x46464952).length = 4 := rfl
    have h2 : ∀ n, (u32le n).length = 4 := fun _ => rfl
    have h3 : ∀ n, (u16le n).length = 2 := fun _ => rfl
    have h4 : ∀ z, (u32leZ z).length = 4 := fun _ => rfl
    rw [h2, h2, h2, h2, h2, h3, h3, h2, h2, h3, h3, h2, h4]
    ring
  · unfold bufferToWav
    rw [wavData_eq_claimedInterleaved]
    rw [show u32le 0x46464952 = asciiRIFF by decide]
    rw [show u32le 0x45564157 = asciiWAVE by decide]
    rw [show u32le 0x20746d66 = asciiFmt by decide]
    rw [show u32le 0x61746164 = asciiData by decide]
    rw [show R * 2 * channels.length = R * channels.length * 2 by ring]
    rw [show ((len * channels.length * 2 + 44 : ℕ) : ℤ) - 40 - 44
          = ((len * channels.length * 2 : ℕ) : ℤ) - 40 by push_cast; ring]

theorem drop_chunk {α : Type} (l₁ l₂ : List α) (k m n : ℕ)
    (h : l₁.length = m) (hk : k = m + n) :
    (l₁ ++ l₂).drop k = l₂.drop n := by
  subst hk
  subst h
  induction l₁ with
  | nil => simp
  | cons a l ih =>
    rw [List.cons_append, List.length_cons]
    rw [show l.length + 1 + n = l.length + n + 1 by omega]
    rw [List.drop_succ_cons]
    exact ih

/-- C9: the 32-bit data-sub-chunk size field at bytes 40-43 holds
`N*C*2 - 40` — the total file length minus 84 — and not the data payload
length `N*C*2`. -/
theorem wav_data_size_field (channels : List (List ℚ)) (R len : ℕ)
    (h40 : 40 ≤ len * channels.length * 2)
    (hlt : len * channels.length * 2 < 4294967296) :
    ((bufferToWav channels R len).drop 40).take 4
      = u32le (len * channels.length * 2 - 40) ∧
    len * channels.length * 2 - 40 = 44 + len * channels.length * 2 - 84 ∧
    u32le (len * channels.length * 2 - 40)
      ≠ u32le (len * channels.length * 2) := by
  have hdrop : (bufferToWav channels R len).drop 40
      = u32leZ (((len * channels.length * 2 + 44 : ℕ) : ℤ) - 40 - 44)
        ++ wavData channels len := by
    unfold bufferToWav
    simp only [List.append_assoc]
    rw [drop_chunk (u32le 0x46464952) _ 40 4 36 rfl (by norm_num)]
    rw [drop_chunk (u32le (len * channels.length * 2 + 44 - 8)) _ 36 4 32 rfl
      (by norm_num)]
    rw [drop_chunk (u32le 0x45564157) _ 32 4 28 rfl (by norm_num)]
    rw [drop_chunk (u32le 0x20746d66) _ 28 4 24 rfl (by norm_num)]
    rw [drop_chunk (u32le 16) _ 24 4 20 rfl (by norm_num)]
    rw [drop_chunk (u16le 1) _ 20 2 18 rfl (by norm_num)]
    rw [drop_chunk (u16le channels.length) _ 18 2 16 rfl (by norm_num)]
    rw [drop_chunk (u32le R) _ 16 4 12 rfl (by norm_num)]
    rw [drop_chunk (u32le (R * 2 * channels.length)) _ 12 4 8 rfl (by norm_num)]
    rw [drop_chunk (u16le (channels.length * 2)) _ 8 2 6 rfl (by norm_num)]
    rw [drop_chunk (u16le 16) _ 6 2 4 rfl (by norm_num)]
    rw [drop_chunk (u32le 0x61746164) _ 4 4 0 rfl (by norm_num)]
    rw [List.drop_zero]
  have hval : u32leZ (((len * channels.length * 2 + 44 : ℕ) : ℤ) - 40 - 44)
      = u32le (len * channels.length * 2 - 40) := by
    unfold u32leZ
    congr 1
    omega
  refine ⟨?_, by omega, ?_⟩
  · rw [hdrop, hval]
    exact List.take_left' rfl
  · intro h
    have heq := u32le_inj (by omega) hlt h
    omega

theorem wav_data_size_field_check :
    (40 ≤ 20 * ([[(0 : ℚ)]] : List (List ℚ)).length * 2) ∧
    (((bufferToWav [[(0 : ℚ)]] 8000 20).drop 40).take 4
       = u32le (20 * ([[(0 : ℚ)]] : List (List ℚ)).length * 2 - 40) ∧
     20 * ([[(0 : ℚ)]] : List (List ℚ)).length * 2 - 40
       = 44 + 20 * ([[(0 : ℚ)]] : List (List ℚ)).length * 2 - 84 ∧
     u32le (20 * ([[(0 : ℚ)]] : List (List ℚ)).length * 2 - 40)
       ≠ u32le (20 * ([[(0 : ℚ)]] : List (List ℚ)).length * 2)) :=
  ⟨by norm_num,
   wav_data_size_field [[(0 : ℚ)]] 8000 20 (by norm_num) (by norm_num)⟩

/-! ### Pipeline orchestration (`handleMerge`, src/App.tsx)

`handleMerge` validates `tracks.length < 2` before any status change, then
sets `PROCESSING` and progress 0, awaits the merge, and maps the outcome:
success stores the blob and sets `COMPLETED`; an abort
(`err.name === 'AbortError'`) silently returns to `IDLE` with progress 0;
any other error sets an error message and `ERROR`. -/

/-- `MergeStatus` of src/types.ts. -/
inductive MergeStatus where
  | IDLE
  | PROCESSING
  | COMPLETED
  | ERROR
deriving DecidableEq

/-- The pieces of React state that `handleMerge` touches. -/
structure AppState where
  status : MergeStatus
  progress : ℚ
  errorMsg : Option String
  mergedBlob : Option (List ℤ)
deriving DecidableEq

/-- Outcome of the awaited `mergeAudioTracks` call as `handleMerge`
observes it: success with a blob, an abort, or another error. -/
inductive MergeOutcome where
  | ok (blob : List ℤ)
  | aborted
  | failed (msg : String)
deriving DecidableEq

/-- The validation message of `handleMerge`. -/
def validationMsg : String := "Seleziona almeno 2 file da unire."

/-- Error banner text of the failure branch.  The source writes
"Errore durante l unione: " with an apostrophe in place of the space
before "unione" and appends `err.message` or a fallback text when that is
empty; the apostrophe and the fallback are dropped here. -/
def mergeErrorMsg (msg : String) : String := "Errore durante unione: " ++ msg

/-- `handleMerge` as a state transformer.  The second component records the
statuses assigned by `setStatus`, in order. -/
def handleMerge (nTracks : ℕ) (outcome : MergeOutcome) (s : AppState) :
    AppState × List MergeStatus :=
  if nTracks < 2 then
    ({ s with errorMsg := some validationMsg }, [])
  else
    let s1 : AppState :=
      { s with errorMsg := none, status := .PROCESSING, progress := 0 }
    match outcome with
    | .ok blob =>
        ({ s1 with mergedBlob := some blob, status := .COMPLETED },
         [.PROCESSING, .COMPLETED])
    | .aborted =>
        ({ s1 with status := .IDLE, progress := 0 },
         [.PROCESSING, .IDLE])
    | .failed msg =>
        ({ s1 with errorMsg := some (mergeErrorMsg msg), status := .ERROR },
         [.PROCESSING, .ERROR])

/-- The initial (Idle) state of the app. -/
def idleState : AppState := ⟨.IDLE, 0, none, none⟩

/-- C4: a merge request with fewer than 2 clips fails immediately with the
validation error, assigns no status at all (in particular never
Processing), and leaves the status unchanged — Idle stays Idle. -/
theorem merge_validation (nTracks : ℕ) (outcome : MergeOutcome)
    (s : AppState) (h : nTracks < 2) :
    (handleMerge nTracks outcome s).1.errorMsg = some validationMsg ∧
    (handleMerge nTracks outcome s).1.status = s.status ∧
    (s.status = .IDLE → (handleMerge nTracks outcome s).1.status = .IDLE) ∧
    MergeStatus.PROCESSING ∉ (handleMerge nTracks outcome s).2 := by
  unfold handleMerge
  rw [if_pos h]
  exact ⟨rfl, rfl, fun hs => hs, by simp⟩

theorem merge_validation_check :
    ((handleMerge 1 .aborted idleState).1.errorMsg = some validationMsg ∧
     (handleMerge 1 .aborted idleState).1.status = idleState.status ∧
     (idleState.status = .IDLE →
       (handleMerge 1 .aborted idleState).1.status = .IDLE) ∧
     MergeStatus.PROCESSING ∉ (handleMerge 1 .aborted idleState).2) :=
  merge_validation 1 .aborted idleState (by norm_num)

/-! ### Encode-stage cancellation (`mergeAudioTracks`,
src/services/geminiService.ts lines 358-510)

`App.tsx` imports `mergeAudioTracks` from `./services/audioService`; the
revision taking an `onProgress` callback and an `AbortSignal` is the final
document of src/services/geminiService.ts.  Its decode loop checks the
signal between decodes, but the worker encode loop (`WORKER_CODE`, lines
293-308) contains no cancellation check at all: an abort during encoding
is handled outside the worker by the `abort` listener (lines 466-472),
which calls `worker.terminate()` and rejects the merge promise with
`AbortError`. -/

/-- The MP3 worker encode loop
(`for (i = 0; i < totalSamples; i += sampleBlockSize)`): every block is
fed to the encoder and the emitted bytes accumulate; the external lamejs
encoder is opaque, so its per-block output stands in as the quantized
samples of the block.  The loop consults no cancellation flag. -/
def workerEncodeLoop : List (List ℚ) → List ℤ → List ℤ
  | [], acc => acc
  | blk :: rest, acc => workerEncodeLoop rest (acc ++ blk.map quantWorker)

/-- Number of blocks the worker feeds to the encoder when the abort signal
becomes set at block boundary `abortAt`: the worker loop contains no
signal check, so every block of the buffer is fed regardless of
`abortAt`. -/
def workerBlocksFed (samples : List ℚ) (_abortAt : Option ℕ) : ℕ :=
  (chunkBlocks samples).length

/-- The encode loop as claim C5 words it: cancellation is observed between
encoder blocks, so a signal set before block `k` stops the loop after `k`
blocks. -/
def claimedBlocksFed (samples : List ℚ) (abortAt : Option ℕ) : ℕ :=
  match abortAt with
  | some k => min k (chunkBlocks samples).length
  | none => (chunkBlocks samples).length

/-- The encode stage of `mergeAudioTracks` as the caller observes it: when
the abort signal fires during encoding, the registered listener terminates
the worker and rejects with `AbortError` — no bytes are delivered;
otherwise the worker finishes and the blob resolves. -/
def encodeStageOutcome (samples : List ℚ) (abortDuringEncode : Bool) :
    MergeOutcome :=
  if abortDuringEncode then .aborted
  else .ok (workerEncodeLoop (chunkBlocks samples) [])

/-- C5 counterexample: the worker feeds both blocks of a 1153-sample
buffer to the encoder even when the abort signal is set before block 0 —
the encode loop has no between-blocks cancellation observation, contrary
to the claim. -/
theorem cancellation_checkpoint_counterexample :
    workerBlocksFed (List.replicate 1153 0) (some 0) = 2 ∧
    claimedBlocksFed (List.replicate 1153 0) (some 0) = 0 ∧
    workerBlocksFed (List.replicate 1153 0) (some 0)
      ≠ claimedBlocksFed (List.replicate 1153 0) (some 0) := by
  have h : (chunkBlocks (List.replicate (1153 : ℕ) (0 : ℚ))).length = 2 := by
    rw [chunkBlocks_length, List.length_replicate]
  refine ⟨?_, ?_, ?_⟩
  · unfold workerBlocksFed
    rw [h]
  · unfold claimedBlocksFed
    rw [h]
    decide
  · unfold workerBlocksFed claimedBlocksFed
    rw [h]
    decide

/-- C5 (amended): when cancellation is signalled during the encode stage
it is observed through the abort listener, which terminates the encoder
worker externally — the worker block loop itself feeds every block and
contains no between-blocks check — the merge rejects with no output
bytes, and the caller ends with status Idle, progress 0, no error
surfaced, and the stored output unchanged. -/
theorem cancellation_during_encode (samples : List ℚ) (n : ℕ)
    (s : AppState) (abortAt : Option ℕ) (hn : 2 ≤ n) :
    encodeStageOutcome samples true = .aborted ∧
    workerBlocksFed samples abortAt = (chunkBlocks samples).length ∧
    (handleMerge n (encodeStageOutcome samples true) s).1.status = .IDLE ∧
    (handleMerge n (encodeStageOutcome samples true) s).1.progress = 0 ∧
    (handleMerge n (encodeStageOutcome samples true) s).1.errorMsg = none ∧
    (handleMerge n (encodeStageOutcome samples true) s).1.mergedBlob
      = s.mergedBlob := by
  have hout : encodeStageOutcome samples true = .aborted := rfl
  refine ⟨hout, rfl, ?_, ?_, ?_, ?_⟩ <;>
    rw [hout] <;> unfold handleMerge <;> rw [if_neg (by omega)]

theorem cancellation_during_encode_check :
    encodeStageOutcome [1] true = .aborted ∧
    workerBlocksFed [1] (some 0) = (chunkBlocks [1]).length ∧
    (handleMerge 2 (encodeStageOutcome [1] true) idleState).1.status
      = .IDLE ∧
    (handleMerge 2 (encodeStageOutcome [1] true) idleState).1.progress
      = 0 ∧
    (handleMerge 2 (encodeStageOutcome [1] true) idleState).1.errorMsg
      = none ∧
    (handleMerge 2 (encodeStageOutcome [1] true) idleState).1.mergedBlob
      = idleState.mergedBlob :=
  cancellation_during_encode [1] 2 idleState (some 0) (by norm_num)

/-! ### Progress reporting (`mergeAudioTracks`,
src/services/geminiService.ts lines 358-510)

`updateProgress` clamps every reported value with
`Math.min(100, Math.max(0, p))`.  One successful merge with `n` clips and
`S` rendered samples reports, in order: 1 at start; `1 + (i+1)*(30/n)`
after decoding clip `i` (reaching 31); 32 once the graph is set up; 35
before rendering; 50 after rendering; from the worker,
`50 + (i/totalSamples)*50` at every block index `i` with
`i % (1152*50) === 0` (the every-50-blocks throttle, hence at
`i = 57600*j < S`); and 100 on the done message. -/

/-- `updateProgress`: `onProgress(Math.min(100, Math.max(0, p)))`. -/
def updateProgressClamp (p : ℚ) : ℚ := min 100 (max 0 p)

/-- Number of progress messages the worker posts for `S` samples: the loop
indices are `0, 1152, 2304, ...` and a message fires when
`i % (1152*50) === 0`, i.e. at `i = 57600*j` with `57600*j < S`. -/
def workerMsgCount (S : ℕ) : ℕ := (S + 57599) / 57600

/-- The raw (unclamped) value reported at the `k`-th progress checkpoint
of one successful merge with `n` clips and `S` rendered samples. -/
def reportedProgressAt (n S k : ℕ) : ℚ :=
  if k = 0 then 1
  else if k ≤ n then 1 + (k : ℚ) * (30 / (n : ℚ))
  else if k = n + 1 then 32
  else if k = n + 2 then 35
  else if k = n + 3 then 50
  else if k ≤ n + 3 + workerMsgCount S then
    50 + ((57600 * (k - (n + 4)) : ℕ) : ℚ) / (S : ℚ) * 50
  else 100

/-- The sequence of values handed to the `onProgress` callback over one
successful merge, each clamped by `updateProgress`. -/
def mergeProgressTrace (n S : ℕ) : List ℚ :=
  (List.range (n + 5 + workerMsgCount S)).map
    (fun k => updateProgressClamp (reportedProgressAt n S k))

theorem updateProgressClamp_mono {a b : ℚ} (h : a ≤ b) :
    updateProgressClamp a ≤ updateProgressClamp b :=
  min_le_min le_rfl (max_le_max le_rfl h)

theorem updateProgressClamp_bounds (p : ℚ) :
    0 ≤ updateProgressClamp p ∧ updateProgressClamp p ≤ 100 :=
  ⟨le_min (by norm_num) (le_max_left 0 p), min_le_left 100 (max 0 p)⟩

theorem reportedProgressAt_zero (n S : ℕ) : reportedProgressAt n S 0 = 1 := by
  unfold reportedProgressAt
  rw [if_pos rfl]

theorem reportedProgressAt_decode {n S k : ℕ} (h0 : k ≠ 0) (hk : k ≤ n) :
    reportedProgressAt n S k = 1 + (k : ℚ) * (30 / (n : ℚ)) := by
  unfold reportedProgressAt
  rw [if_neg h0, if_pos hk]

theorem reportedProgressAt_graph {n S k : ℕ} (hk : k = n + 1) :
    reportedProgressAt n S k = 32 := by
  unfold reportedProgressAt
  have h0 : k ≠ 0 := by omega
  have h1 : ¬ k ≤ n := by omega
  rw [if_neg h0, if_neg h1, if_pos hk]

theorem reportedProgressAt_render {n S k : ℕ} (hk : k = n + 2) :
    reportedProgressAt n S k = 35 := by
  unfold reportedProgressAt
  have h0 : k ≠ 0 := by omega
  have h1 : ¬ k ≤ n := by omega
  have h2 : k ≠ n + 1 := by omega
  rw [if_neg h0, if_neg h1, if_neg h2, if_pos hk]

theorem reportedProgressAt_rendered {n S k : ℕ} (hk : k = n + 3) :
    reportedProgressAt n S k = 50 := by
  unfold reportedProgressAt
  have h0 : k ≠ 0 := by omega
  have h1 : ¬ k ≤ n := by omega
  have h2 : k ≠ n + 1 := by omega
  have h3 : k ≠ n + 2 := by omega
  rw [if_neg h0, if_neg h1, if_neg h2, if_neg h3, if_pos hk]

theorem reportedProgressAt_worker {n S k : ℕ} (hlo : n + 4 ≤ k)
    (hhi : k ≤ n + 3 + workerMsgCount S) :
    reportedProgressAt n S k
      = 50 + ((57600 * (k - (n + 4)) : ℕ) : ℚ) / (S : ℚ) * 50 := by
  unfold reportedProgressAt
  have h0 : k ≠ 0 := by omega
  have h1 : ¬ k ≤ n := by omega
  have h2 : k ≠ n + 1 := by omega
  have h3 : k ≠ n + 2 := by omega
  have h4 : k ≠ n + 3 := by omega
  rw [if_neg h0, if_neg h1, if_neg h2, if_neg h3, if_neg h4, if_pos hhi]

theorem reportedProgressAt_done {n S k : ℕ}
    (hk : n + 3 + workerMsgCount S < k) :
    reportedProgressAt n S k = 100 := by
  unfold reportedProgressAt
  have h0 : k ≠ 0 := by omega
  have h1 : ¬ k ≤ n := by omega
  have h2 : k ≠ n + 1 := by omega
  have h3 : k ≠ n + 2 := by omega
  have h4 : k ≠ n + 3 := by omega
  have h5 : ¬ k ≤ n + 3 + workerMsgCount S := by omega
  rw [if_neg h0, if_neg h1, if_neg h2, if_neg h3, if_neg h4, if_neg h5]

theorem reportedProgressAt_mono (n S : ℕ) (hn : 1 ≤ n) (k : ℕ) :
    reportedProgressAt n S k ≤ reportedProgressAt n S (k + 1) := by
  have hnQ : (0 : ℚ) < n := by exact_mod_cast hn
  rcases Nat.eq_zero_or_pos k with hk0 | hk0
  · subst hk0
    rw [reportedProgressAt_zero, reportedProgressAt_decode (by omega)
      (by omega : 0 + 1 ≤ n)]
    have h30 : (0 : ℚ) ≤ 30 / (n : ℚ) := by positivity
    push_cast
    nlinarith
  · rcases le_or_lt (k + 1) n with h1 | h1
    · rw [reportedProgressAt_decode (by omega) (by omega),
        reportedProgressAt_decode (by omega) h1]
      have h30 : (0 : ℚ) ≤ 30 / (n : ℚ) := by positivity
      have hc : ((k : ℕ) : ℚ) ≤ ((k + 1 : ℕ) : ℚ) := by
        exact_mod_cast Nat.le_succ k
      nlinarith
    · rcases le_or_lt k n with h2 | h2
      · have hk : k = n := by omega
        subst hk
        rw [reportedProgressAt_decode (by omega) le_rfl,
          reportedProgressAt_graph rfl]
        rw [mul_comm, div_mul_cancel₀ _ (ne_of_gt hnQ)]
        norm_num
      · rcases Nat.lt_or_ge k (n + 2) with h3 | h3
        · have hk : k = n + 1 := by omega
          subst hk
          rw [reportedProgressAt_graph rfl, reportedProgressAt_render rfl]
          norm_num
        · rcases Nat.lt_or_ge k (n + 3) with h4 | h4
          · have hk : k = n + 2 := by omega
            subst hk
            rw [reportedProgressAt_render rfl,
              reportedProgressAt_rendered rfl]
            norm_num
          · rcases Nat.lt_or_ge k (n + 4) with h5 | h5
            · have hk : k = n + 3 := by omega
              subst hk
              rw [reportedProgressAt_rendered rfl]
              by_cases hW : 1 ≤ workerMsgCount S
              · rw [reportedProgressAt_worker (by omega) (by omega)]
                rw [show n + 3 + 1 - (n + 4) = 0 by omega]
                norm_num
              · rw [reportedProgressAt_done (by omega)]
                norm_num
            · rcases le_or_lt (k + 1) (n + 3 + workerMsgCount S)
                with h6 | h6
              · rw [reportedProgressAt_worker h5 (by omega),
                  reportedProgressAt_worker (by omega) h6]
                have hxy : ((57600 * (k - (n + 4)) : ℕ) : ℚ)
                    ≤ ((57600 * (k + 1 - (n + 4)) : ℕ) : ℚ) := by
                  exact_mod_cast Nat.mul_le_mul_left 57600 (by omega)
                rcases eq_or_lt_of_le (Nat.cast_nonneg (α := ℚ) S)
                  with hS | hS
                · rw [← hS, div_zero, div_zero]
                · have hdiv : ((57600 * (k - (n + 4)) : ℕ) : ℚ) / (S : ℚ)
                      ≤ ((57600 * (k + 1 - (n + 4)) : ℕ) : ℚ) / (S : ℚ) :=
                    (div_le_div_iff_of_pos_right hS).mpr hxy
                  nlinarith
              · rcases le_or_lt k (n + 3 + workerMsgCount S) with h7 | h7
                · rw [reportedProgressAt_worker h5 h7,
                    reportedProgressAt_done (by omega)]
                  have hW : 1 ≤ workerMsgCount S := by omega
                  have hS1 : 1 ≤ S := by
                    by_contra hS0
                    have : S = 0 := by omega
                    rw [this] at hW
                    norm_num [workerMsgCount] at hW
                  have harg : 57600 * (k - (n + 4)) ≤ S := by
                    have hkW : k - (n + 4) ≤ workerMsgCount S - 1 := by
                      omega
                    unfold workerMsgCount at hkW
                    omega
                  have hSQ : (0 : ℚ) < (S : ℚ) := by exact_mod_cast hS1
                  have hr : ((57600 * (k - (n + 4)) : ℕ) : ℚ) / (S : ℚ)
                      ≤ 1 := by
                    rw [div_le_one hSQ]
                    exact_mod_cast harg
                  nlinarith
                · rw [reportedProgressAt_done (by omega),
                    reportedProgressAt_done (by omega)]

theorem reportedProgressAt_last (n S : ℕ) :
    reportedProgressAt n S (n + 4 + workerMsgCount S) = 100 :=
  reportedProgressAt_done (by omega)

/-- C6: over one merge the progress callback is invoked with monotonically
non-decreasing values in [0, 100], and the last reported value on success
is the maximum, 100. -/
theorem progress_monotone (n S : ℕ) (hn : 1 ≤ n) :
    List.Chain' (· ≤ ·) (mergeProgressTrace n S) ∧
    (∀ p ∈ mergeProgressTrace n S, 0 ≤ p ∧ p ≤ 100) ∧
    (mergeProgressTrace n S).getLast? = some 100 := by
  refine ⟨?_, ?_, ?_⟩
  · unfold mergeProgressTrace
    rw [List.chain'_map]
    rw [show n + 5 + workerMsgCount S = n + 4 + workerMsgCount S + 1
      by omega]
    rw [List.chain'_range_succ]
    intro m _
    exact updateProgressClamp_mono (reportedProgressAt_mono n S hn m)
  · intro p hp
    unfold mergeProgressTrace at hp
    obtain ⟨k, hk, hfk⟩ := List.mem_map.mp hp
    rw [← hfk]
    exact updateProgressClamp_bounds _
  · unfold mergeProgressTrace
    rw [List.getLast?_eq_getElem?]
    simp only [List.length_map, List.length_range]
    rw [show n + 5 + workerMsgCount S - 1 = n + 4 + workerMsgCount S
      by omega]
    rw [List.getElem?_map]
    rw [List.getElem?_range (by omega)]
    simp [reportedProgressAt_last, updateProgressClamp]

theorem progress_monotone_check :
    List.Chain' (· ≤ ·) (mergeProgressTrace 2 60000) ∧
    (∀ p ∈ mergeProgressTrace 2 60000, 0 ≤ p ∧ p ≤ 100) ∧
    (mergeProgressTrace 2 60000).getLast? = some 100 :=
  progress_monotone 2 60000 (by norm_num)

/-! ### Analyzer error handling (`calculateOptimalVolume`, try/catch) -/

/-- The try/catch of `calculateOptimalVolume`: decoding (or any analysis
step) may fail, arriving here as an `Except`; the catch clause returns the
neutral gain 1.0 instead of re-throwing. -/
noncomputable def analyzeFileResult
    (decodeResult : Except String (List (List ℝ))) (targetRms : ℝ) :
    Except String ℝ :=
  match decodeResult with
  | .ok channels => .ok (calculateOptimalVolume channels targetRms)
  | .error _ => .ok 1

/-- C10: the analyzer never propagates an error — every decode outcome
yields a gain, and a failed decode or analysis yields the neutral gain
1.0. -/
theorem analyzer_never_raises
    (decodeResult : Except String (List (List ℝ))) (targetRms : ℝ) :
    (∃ g, analyzeFileResult decodeResult targetRms = .ok g) ∧
    (∀ e, decodeResult = .error e →
      analyzeFileResult decodeResult targetRms = .ok 1) := by
  constructor
  · cases decodeResult with
    | ok ch => exact ⟨_, rfl⟩
    | error e => exact ⟨1, rfl⟩
  · intro e he
    rw [he]
    rfl

theorem analyzer_never_raises_check :
    (∃ g, analyzeFileResult (.error "decode failed") 0.15 = .ok g) ∧
    analyzeFileResult (Except.error "decode failed") 0.15 = .ok 1 :=
  ⟨(analyzer_never_raises (.error "decode failed") 0.15).1,
   (analyzer_never_raises (.error "decode failed") 0.15).2 "decode failed"
     rfl⟩

end Mp3Fusion
